import Mathlib

/-!
Shallow embedding of the link-shortener core of `src/src/App.tsx`:
the types `ClickRecord` and `ShortLink`, the helpers `isValidUrl` and
`addMinutesToIso`, the dashboard operations `createShort`, `removeLink`
and `simulateClick`, and the resolution logic of `RedirectHandler`.

Timestamps are modelled as integers counting seconds: the source stores
ISO-8601 strings of one fixed format, which compare chronologically, so
`new Date(a) < new Date(b)` becomes `a < b` on the integer time line.
The `localStorage` array under `STORAGE_KEYS.LINKS` (`loadLinks` /
`saveLinks`) is passed around explicitly as a value of type `Links`.
Browser builtins used by the source (`new URL`, `String.prototype.trim`,
`Math.random` inside `genShortCode`, `new Date()`) are external to the
repository; they are modelled by small pure functions (`urlProtocol`,
`jsTrim`) or by explicit parameters (the generated candidate code, `now`).
-/

namespace Shortener

/-- Source `type ClickRecord = { ts: string; source: string }`. -/
structure ClickRecord where
  ts : Int
  source : String
  deriving DecidableEq

/-- Source `type ShortLink = { id; originalUrl; createdAt; expiresAt; clicks; createdBy }`. -/
structure ShortLink where
  id : String
  originalUrl : String
  createdAt : Int
  expiresAt : Int
  clicks : List ClickRecord
  createdBy : String
  deriving DecidableEq

/-- The persisted array under `STORAGE_KEYS.LINKS`. -/
abbrev Links := List ShortLink

/-- Source `addMinutesToIso`: shift a timestamp by whole minutes. -/
def addMinutes (t : Int) (mins : Int) : Int :=
  t + mins * 60

/-- Characters allowed after the leading letter of a URL scheme. -/
def isSchemeChar (c : Char) : Bool :=
  c.isAlphanum || c == '+' || c == '-' || c == '.'

/-- The characters of a string before its first colon, `none` when the
string has no colon.  Models the scheme part of the WHATWG `URL`
constructor, a browser builtin external to the repository. -/
def schemeChars : List Char → Option (List Char)
  | [] => none
  | c :: cs => if c = ':' then some [] else (schemeChars cs).map (fun l => c :: l)

/-- A scheme is one letter followed by letters, digits, `+`, `-`, `.`. -/
def validSchemeChars : List Char → Bool
  | [] => false
  | c :: cs => c.isAlpha && cs.all isSchemeChar

/-- The protocol of `url` (lower-cased, without the trailing colon) when
`url` parses as an absolute URL; `none` when `new URL(url)` would throw. -/
def urlProtocol (url : String) : Option String :=
  match schemeChars url.data with
  | none => none
  | some cs => if validSchemeChars cs then some (String.mk (cs.map Char.toLower)) else none

/-- Source `isValidUrl`: `new URL(url)` succeeds and `u.protocol` is
`http:` or `https:`. -/
def isValidUrl (url : String) : Bool :=
  match urlProtocol url with
  | some p => p == "http" || p == "https"
  | none => false

/-- Models the JavaScript `String.prototype.trim` builtin: strip leading
and trailing whitespace. -/
def jsTrim (s : String) : String :=
  String.mk (((s.data.dropWhile Char.isWhitespace).reverse.dropWhile Char.isWhitespace).reverse)

/-- The validity input as it reaches `createShort`: the form holds either a
number, the empty selection `""` (unspecified, defaulted to 30), or text
whose `Number(...)` is `NaN`. -/
inductive VInput where
  | unspecified
  | nan
  | num (m : Int)
  deriving DecidableEq

/-- Source line `const minutes = validityMinutes === "" ? 30 : Number(validityMinutes)`;
`none` models `NaN`. -/
def numValue : VInput → Option Int
  | .unspecified => some 30
  | .nan => none
  | .num m => some m

/-- The inputs one call of `createShort` reads: the form fields, the
logged-in user's id, the candidate that `genShortCode()` would return
(randomness is external, so the candidate is a parameter), and the
wall-clock time `nowIso()` would return. -/
structure CreateArgs where
  originalUrl : String
  customCode : String
  validityMinutes : VInput
  userId : String
  genCode : String
  now : Int
  deriving DecidableEq

/-- Source line `let code = customCode.trim() || genShortCode()`:
the trimmed custom code, falling back to the generated candidate when
the trim result is empty (falsy). -/
def chosenCode (a : CreateArgs) : String :=
  if jsTrim a.customCode = "" then a.genCode else jsTrim a.customCode

/-- The three `setErr` failure exits of `createShort` (each is a fixed
message string in the source; none of the messages names the offending
input). -/
inductive CreateError where
  | invalidUrl
  | invalidDuration
  | collision
  deriving DecidableEq

/-- Source `links.find((l) => l.id === code)`. -/
def findLink (links : Links) (id : String) : Option ShortLink :=
  links.find? (fun l => l.id == id)

/-- Source `createShort` (lines 269–294): validate the URL, resolve and
validate the validity minutes, choose the code, reject a collision, then
prepend the new record (`setLinks((s) => [newLink, ...s])`). -/
def createShort (links : Links) (a : CreateArgs) : Except CreateError (ShortLink × Links) :=
  if isValidUrl a.originalUrl = false then .error .invalidUrl else
  match numValue a.validityMinutes with
  | none => .error .invalidDuration
  | some minutes =>
    if minutes ≤ 0 then .error .invalidDuration else
    match findLink links (chosenCode a) with
    | some _ => .error .collision
    | none =>
      let newLink : ShortLink :=
        { id := chosenCode a
          originalUrl := a.originalUrl
          createdAt := a.now
          expiresAt := addMinutes a.now minutes
          clicks := []
          createdBy := a.userId }
      .ok (newLink, newLink :: links)

/-- Source `removeLink`: `setLinks((s) => s.filter((l) => l.id !== id))`.
There is no lookup and no failure path: filtering is unconditional. -/
def removeLink (links : Links) (id : String) : Links :=
  links.filter (fun l => l.id != id)

/-- The per-record update both `simulateClick` and `RedirectHandler`
apply: append the click to the matching record, leave others alone. -/
def touchClicks (id : String) (r : ClickRecord) (l : ShortLink) : ShortLink :=
  if l.id == id then { l with clicks := l.clicks ++ [r] } else l

/-- Source `prev.map((l) => (l.id === id ? { ...l, clicks: [...l.clicks, rec] } : l))`. -/
def recordClick (links : Links) (id : String) (r : ClickRecord) : Links :=
  links.map (touchClicks id r)

/-- Classification of a record against a time. -/
inductive Status where
  | live
  | expired
  deriving DecidableEq

/-- The expiry evaluation exactly as `RedirectHandler` computes it
(line 523): `new Date(found.expiresAt) < new Date()` — expired iff
`expiresAt < now`, strict. -/
def classify (l : ShortLink) (now : Int) : Status :=
  if l.expiresAt < now then .expired else .live

/-- The three terminal states of a resolution. -/
inductive Outcome where
  | notFound
  | expired
  | redirect (destination : String)
  deriving DecidableEq

/-- Source `RedirectHandler` (lines 509–538): look the code up; absent → the 404
navigation with no write; expired → the expired navigation with no write;
otherwise append one click (source from the referrer) via `saveLinks` and
redirect to the original URL.  Returns the outcome and the persisted
store after the call. -/
def resolve (links : Links) (id : String) (src : String) (now : Int) : Outcome × Links :=
  match findLink links id with
  | none => (.notFound, links)
  | some found =>
    if found.expiresAt < now then (.expired, links)
    else (.redirect found.originalUrl, recordClick links id { ts := now, source := src })

/-- The store after one `createShort` call: on any `setErr` exit the
handler returns before `setLinks`, so the store is unchanged. -/
def createStep (links : Links) (a : CreateArgs) : Links :=
  match createShort links a with
  | .ok (_, s) => s
  | .error _ => links

/-- A sequence of `createShort` calls. -/
def runCreates (links : Links) (cs : List CreateArgs) : Links :=
  cs.foldl createStep links

/-- One user-level operation on the persisted store. -/
inductive Op where
  | create (a : CreateArgs)
  | remove (id : String)
  | click (id src : String) (now : Int)
  | visit (id src : String) (now : Int)
  deriving DecidableEq

/-- The store transition of each operation (`createShort`, `removeLink`,
`simulateClick`, `RedirectHandler`). -/
def applyOp (links : Links) : Op → Links
  | .create a => createStep links a
  | .remove id => removeLink links id
  | .click id src now => recordClick links id { ts := now, source := src }
  | .visit id src now => (resolve links id src now).2

/-- A sequence of operations against the store. -/
def runOps (links : Links) (ops : List Op) : Links :=
  ops.foldl applyOp links

/-- The wall-clock instant an operation carries (`remove` reads no clock). -/
def opTime (t : Int) : Op → Int
  | .create a => a.now
  | .remove _ => t
  | .click _ _ now => now
  | .visit _ _ now => now

/-- The operations' wall-clock instants never decrease along the trace,
starting from `t` (the real `new Date()` is monotone). -/
def timesMonotone : Int → List Op → Bool
  | _, [] => true
  | t, op :: rest => decide (t ≤ opTime t op) && timesMonotone (opTime t op) rest

/-- Newest-first ordering: every record's `createdAt` is at least that of
every record after it. -/
def sortedDesc (links : Links) : Prop :=
  links.Pairwise (fun a b => b.createdAt ≤ a.createdAt)

/-- Every record was created no later than `t`. -/
def boundBy (t : Int) (links : Links) : Prop :=
  ∀ l ∈ links, l.createdAt ≤ t

/-- No two records of the store share a code. -/
def uniqueCodes (links : Links) : Prop :=
  (links.map (fun l => l.id)).Nodup

/-! ### Basic lemmas about the embedded operations -/

/-- The classification is `expired` exactly when `expiresAt < now`
(the strict comparison of line 523). -/
theorem classify_expired_iff (l : ShortLink) (now : Int) :
    classify l now = Status.expired ↔ l.expiresAt < now := by
  unfold classify
  split <;> simp_all

/-- The classification is `live` exactly when `now ≤ expiresAt`. -/
theorem classify_live_iff (l : ShortLink) (now : Int) :
    classify l now = Status.live ↔ now ≤ l.expiresAt := by
  unfold classify
  split <;> simp_all

/-- Lookup misses exactly when no record carries the code. -/
theorem findLink_eq_none {links : Links} {id : String} :
    findLink links id = none ↔ ∀ l ∈ links, l.id ≠ id := by
  unfold findLink
  rw [List.find?_eq_none]
  simp

/-- Lookup on a freshly prepended record returns it. -/
theorem findLink_cons_self (r : ShortLink) (links : Links) :
    findLink (r :: links) r.id = some r := by
  unfold findLink
  simp [List.find?_cons]

/-- Everything a successful `createShort` call guarantees: the new record
is prepended, carries the chosen code, the destination, creation time
`now`, expiry `now + minutes`, an empty click history, and the owner; the
inputs passed validation and the chosen code was free. -/
theorem createShort_ok {links : Links} {a : CreateArgs} {r : ShortLink} {s' : Links}
    (h : createShort links a = Except.ok (r, s')) :
    s' = r :: links ∧
    r.id = chosenCode a ∧ r.originalUrl = a.originalUrl ∧ r.createdAt = a.now ∧
    r.clicks = [] ∧ r.createdBy = a.userId ∧
    (∃ m, numValue a.validityMinutes = some m ∧ 0 < m ∧
      r.expiresAt = addMinutes a.now m) ∧
    isValidUrl a.originalUrl = true ∧
    findLink links (chosenCode a) = none := by
  unfold createShort at h
  by_cases hurl : isValidUrl a.originalUrl = false
  · rw [if_pos hurl] at h
    exact absurd h (by simp)
  rw [if_neg hurl] at h
  rw [Bool.not_eq_false] at hurl
  cases hnum : numValue a.validityMinutes with
  | none => simp [hnum] at h
  | some minutes =>
    simp only [hnum] at h
    by_cases hm : minutes ≤ 0
    · rw [if_pos hm] at h
      exact absurd h (by simp)
    rw [if_neg hm] at h
    cases hfind : findLink links (chosenCode a) with
    | some l => simp [hfind] at h
    | none =>
      simp only [hfind, Except.ok.injEq, Prod.mk.injEq] at h
      obtain ⟨hr, hs⟩ := h
      subst hs
      refine ⟨by rw [hr], by rw [← hr], by rw [← hr], by rw [← hr],
        by rw [← hr], by rw [← hr], ⟨minutes, rfl, by omega, by rw [← hr]⟩,
        hurl, rfl⟩

/-! ### C1 — expiry boundary -/

/-- A record exactly as `createShort` would build it at `T0 = 0` with
`validityMinutes = 30`: `expiresAt = addMinutes 0 30 = 1800`. -/
def boundaryRecord : ShortLink :=
  { id := "abc"
    originalUrl := "https://example.com/x"
    createdAt := 0
    expiresAt := addMinutes 0 30
    clicks := []
    createdBy := "owner" }

/-- C1: counterexample.  The claim asserts a record classifies `Expired`
whenever `now ≥ expiresAt`; the source compares strictly
(`new Date(found.expiresAt) < new Date()`), so at exactly `expiresAt` —
here `T0 + 30` minutes with `T0 = 0`, a time `≥ expiresAt` — the record
still classifies `live`, refuting the claim at a concrete input. -/
theorem C1_counterexample :
    boundaryRecord.expiresAt ≤ addMinutes 0 30 ∧
    classify boundaryRecord (addMinutes 0 30) = Status.live := by
  decide

/-- C1 (amended): expiry classification is exclusive at the expiry
instant: a record classifies `expired` iff `now > expiresAt`.  In
particular a record created at `T0` with `validityMinutes = 30` is `live`
at `T0 + 29m59s`, still `live` at exactly `T0 + 30m`, and `expired` at
every strictly later time. -/
theorem C1_expiry_boundary (l : ShortLink) (now T0 : Int) :
    (classify l now = Status.expired ↔ l.expiresAt < now) ∧
    (l.expiresAt = addMinutes T0 30 →
      classify l (T0 + 29 * 60 + 59) = Status.live ∧
      classify l (addMinutes T0 30) = Status.live ∧
      (addMinutes T0 30 < now → classify l now = Status.expired)) := by
  refine ⟨classify_expired_iff l now, fun h => ⟨?_, ?_, fun hlt => ?_⟩⟩
  · rw [classify_live_iff, h]
    simp only [addMinutes]
    omega
  · rw [classify_live_iff, h]
  · rw [classify_expired_iff, h]
    exact hlt

/-- C1 (amended), witness at the record created at `T0 = 0` with
validity 30 minutes. -/
theorem C1_expiry_boundary_witness :
    classify boundaryRecord (0 + 29 * 60 + 59) = Status.live ∧
    classify boundaryRecord (addMinutes 0 30) = Status.live ∧
    classify boundaryRecord 2000 = Status.expired := by
  have h := (C1_expiry_boundary boundaryRecord 2000 0).2 (by decide)
  exact ⟨h.1, h.2.1, h.2.2 (by decide)⟩

/-! ### C3 — no analytics on expired resolution -/

/-- C3: resolving a code whose record classifies `expired` at `now`
returns the persisted store unchanged — in particular every record's
`clicks` sequence is identical before and after — because the expired
branch of `RedirectHandler` navigates away before ever calling
`saveLinks`. -/
theorem C3_expired_no_click (links : Links) (id src : String) (now : Int)
    (l : ShortLink) (hf : findLink links id = some l)
    (hx : classify l now = Status.expired) :
    (resolve links id src now).2 = links := by
  have hlt := (classify_expired_iff l now).mp hx
  simp [resolve, hf, hlt]

/-- A record whose validity window closed at time 10. -/
def staleLink : ShortLink :=
  { id := "old"
    originalUrl := "https://x.com/a"
    createdAt := 0
    expiresAt := 10
    clicks := []
    createdBy := "o" }

/-- C3, witness: the record expired at time 10 resolved at time 20. -/
theorem C3_expired_no_click_witness :
    (resolve [staleLink] "old" "ref" 20).2 = [staleLink] :=
  C3_expired_no_click [staleLink] "old" "ref" 20 staleLink (by decide) (by decide)

/-! ### C10 — not-found / expired resolutions write nothing -/

/-- C10: a resolution whose outcome is `notFound` or `expired` performs
no write at all: `RedirectHandler` reaches `saveLinks` only on the
redirect path, so in those branches the persisted store — every record
and field — is returned unchanged. -/
theorem C10_no_write_on_failure (links : Links) (id src : String) (now : Int)
    (h : (resolve links id src now).1 = Outcome.notFound ∨
      (resolve links id src now).1 = Outcome.expired) :
    (resolve links id src now).2 = links := by
  cases hf : findLink links id with
  | none => simp [resolve, hf]
  | some found =>
    by_cases hlt : found.expiresAt < now
    · simp [resolve, hf, hlt]
    · simp [resolve, hf, hlt] at h

/-- C10, witness: resolving an unknown code against the empty store. -/
theorem C10_no_write_on_failure_witness :
    (resolve [] "doesnotexist" "ref" 0).2 = [] :=
  C10_no_write_on_failure [] "doesnotexist" "ref" 0 (Or.inl (by decide))

/-! ### Success-path lemmas for `createShort` -/

/-- The record `createShort` builds on its success path. -/
def mkLink (a : CreateArgs) (minutes : Int) : ShortLink :=
  { id := chosenCode a
    originalUrl := a.originalUrl
    createdAt := a.now
    expiresAt := addMinutes a.now minutes
    clicks := []
    createdBy := a.userId }

/-- A call of `createShort` succeeds and prepends `mkLink` whenever the URL and
duration validate and the chosen code is free. -/
theorem createShort_success (links : Links) (a : CreateArgs) (m : Int)
    (hurl : isValidUrl a.originalUrl = true)
    (hm : numValue a.validityMinutes = some m) (hm0 : 0 < m)
    (hfree : findLink links (chosenCode a) = none) :
    createShort links a = Except.ok (mkLink a m, mkLink a m :: links) := by
  simp [createShort, mkLink, hurl, hm, hfree, not_le.mpr hm0]

/-- Deleting a freshly prepended record whose code is otherwise unused
restores the previous store. -/
theorem removeLink_cons_fresh (r : ShortLink) (links : Links)
    (hfree : findLink links r.id = none) :
    removeLink (r :: links) r.id = links := by
  have hall := findLink_eq_none.mp hfree
  unfold removeLink
  rw [List.filter_cons_of_neg (by simp)]
  exact List.filter_eq_self.mpr (fun l hl => by simpa [bne_iff_ne] using hall l hl)

/-! ### C2 — the three-way resolution mapping -/

/-- The spec's round-trip record: created at `T0 = 0` from
`CreateLink("https://example.com/x", "abc", 60, owner)`. -/
def rtRecord : ShortLink :=
  { id := "abc"
    originalUrl := "https://example.com/x"
    createdAt := 0
    expiresAt := addMinutes 0 60
    clicks := []
    createdBy := "owner" }

/-- C2: `resolve` follows the fixed three-way mapping: absent code →
`notFound`; record classified `expired` → `expired`; otherwise `redirect`
to the stored destination with exactly one click, carrying the
caller-supplied source, appended to that record.  In particular a record
freshly created by `createShort` and resolved while `live` yields
`redirect` to its destination and its stored `clicks` is afterwards
exactly the one new event with that source. -/
theorem C2_resolve_mapping (links : Links) (id src : String) (now : Int) :
    (findLink links id = none →
      resolve links id src now = (Outcome.notFound, links)) ∧
    (∀ l, findLink links id = some l → classify l now = Status.expired →
      resolve links id src now = (Outcome.expired, links)) ∧
    (∀ l, findLink links id = some l → classify l now = Status.live →
      resolve links id src now = (Outcome.redirect l.originalUrl,
        recordClick links id { ts := now, source := src })) ∧
    (∀ (a : CreateArgs) (r : ShortLink) (s' : Links),
      createShort links a = Except.ok (r, s') → classify r now = Status.live →
      (resolve s' r.id src now).1 = Outcome.redirect a.originalUrl ∧
      findLink (resolve s' r.id src now).2 r.id =
        some { r with clicks := [{ ts := now, source := src }] }) := by
  refine ⟨fun hf => ?_, fun l hf hx => ?_, fun l hf hl => ?_, fun a r s' hc hl => ?_⟩
  · simp [resolve, hf]
  · have hlt := (classify_expired_iff l now).mp hx
    simp [resolve, hf, hlt]
  · have hle := (classify_live_iff l now).mp hl
    simp [resolve, hf, not_lt.mpr hle]
  · obtain ⟨hs, _, hurlr, _, hclicks, _, _, _, _⟩ := createShort_ok hc
    subst hs
    have hfind : findLink (r :: links) r.id = some r := findLink_cons_self r links
    have hle := (classify_live_iff r now).mp hl
    constructor
    · simp [resolve, hfind, not_lt.mpr hle, hurlr]
    · simp only [resolve, hfind, if_neg (not_lt.mpr hle)]
      unfold recordClick findLink
      simp [touchClicks, hclicks]

/-- C2, witness: the spec's round trip (`CreateLink` of
`https://example.com/x` under code `abc` for 60 minutes at `T0 = 0`,
resolved with source `ref` at `T0 + 1` minute) plus the unknown-code
case. -/
theorem C2_resolve_mapping_witness :
    ((resolve [rtRecord] "abc" "ref" 60).1 =
        Outcome.redirect "https://example.com/x" ∧
      findLink (resolve [rtRecord] "abc" "ref" 60).2 "abc" =
        some { rtRecord with clicks := [{ ts := 60, source := "ref" }] }) ∧
    resolve [] "doesnotexist" "ref" 60 = (Outcome.notFound, []) := by
  constructor
  · exact (C2_resolve_mapping [] "abc" "ref" 60).2.2.2
      { originalUrl := "https://example.com/x"
        customCode := "abc"
        validityMinutes := VInput.num 60
        userId := "owner"
        genCode := "g"
        now := 0 }
      rtRecord [rtRecord] (by rfl) (by decide)
  · exact (C2_resolve_mapping [] "doesnotexist" "ref" 60).1 rfl

/-! ### C5 — create rejects invalid input without modifying the registry -/

/-- C5: an ill-formed or non-http(s) destination fails with
`InvalidUrlError`; a non-positive (or `NaN`) validity fails with
`InvalidDurationError`; in every failure case the store is unchanged
(`createShort` returns at `setErr` before `setLinks`). -/
theorem C5_invalid_rejected (links : Links) (a : CreateArgs) :
    (isValidUrl a.originalUrl = false →
      createShort links a = Except.error CreateError.invalidUrl ∧
      createStep links a = links) ∧
    (isValidUrl a.originalUrl = true → numValue a.validityMinutes = none →
      createShort links a = Except.error CreateError.invalidDuration ∧
      createStep links a = links) ∧
    (∀ m : Int, isValidUrl a.originalUrl = true →
      numValue a.validityMinutes = some m → m ≤ 0 →
      createShort links a = Except.error CreateError.invalidDuration ∧
      createStep links a = links) := by
  refine ⟨fun hurl => ?_, fun hurl hnan => ?_, fun m hurl hm hm0 => ?_⟩
  · have hc : createShort links a = Except.error CreateError.invalidUrl := by
      simp [createShort, hurl]
    exact ⟨hc, by simp [createStep, hc]⟩
  · have hc : createShort links a = Except.error CreateError.invalidDuration := by
      simp [createShort, hurl, hnan]
    exact ⟨hc, by simp [createStep, hc]⟩
  · have hc : createShort links a = Except.error CreateError.invalidDuration := by
      simp [createShort, hurl, hm, hm0]
    exact ⟨hc, by simp [createStep, hc]⟩

/-- Create request with the non-http(s) destination `ftp://x.com`. -/
def badUrlArgs : CreateArgs :=
  { originalUrl := "ftp://x.com"
    customCode := ""
    validityMinutes := VInput.num 30
    userId := "o"
    genCode := "g"
    now := 0 }

/-- Create request with a zero validity duration. -/
def badDurArgs : CreateArgs :=
  { originalUrl := "https://x.com"
    customCode := ""
    validityMinutes := VInput.num 0
    userId := "o"
    genCode := "g"
    now := 0 }

/-- C5, witness: the spec's two rejected calls, against the empty store. -/
theorem C5_invalid_rejected_witness :
    (createShort [] badUrlArgs = Except.error CreateError.invalidUrl ∧
      createStep [] badUrlArgs = []) ∧
    (createShort [] badDurArgs = Except.error CreateError.invalidDuration ∧
      createStep [] badDurArgs = []) :=
  ⟨(C5_invalid_rejected [] badUrlArgs).1 (by decide),
    (C5_invalid_rejected [] badDurArgs).2.2 0 (by decide) (by decide) (by decide)⟩

/-! ### C6 — requested codes are trimmed, then used verbatim -/

/-- Create request whose requested code carries a leading space. -/
def paddedArgs : CreateArgs :=
  { originalUrl := "https://x.com"
    customCode := " abc"
    validityMinutes := VInput.num 30
    userId := "o"
    genCode := "g"
    now := 0 }

/-- C6: counterexample.  The claim says a provided `requestedCode` is
used exactly as given with no whitespace normalization; the source runs
`customCode.trim()` first, so requesting `" abc"` produces a record whose
code is `"abc"`, a different string. -/
theorem C6_counterexample :
    (createShort [] paddedArgs).map (fun p => p.1.id) = Except.ok "abc" ∧
    " abc" ≠ "abc" := by
  constructor
  · rfl
  · decide

/-- C6 (amended): a provided `requestedCode` is first trimmed of leading
and trailing whitespace; when the trimmed code is non-empty it is used
with no further normalization — it becomes the new record's code if not
among the existing codes, and otherwise creation fails with the collision
error (a fixed message that does not name the code). -/
theorem C6_requested_code (links : Links) (a : CreateArgs) (m : Int)
    (hcc : jsTrim a.customCode ≠ "")
    (hurl : isValidUrl a.originalUrl = true)
    (hm : numValue a.validityMinutes = some m) (hm0 : 0 < m) :
    (findLink links (jsTrim a.customCode) = none →
      ∃ r s', createShort links a = Except.ok (r, s') ∧
        r.id = jsTrim a.customCode) ∧
    (findLink links (jsTrim a.customCode) ≠ none →
      createShort links a = Except.error CreateError.collision) := by
  have hch : chosenCode a = jsTrim a.customCode := by
    unfold chosenCode
    rw [if_neg hcc]
  constructor
  · intro hfree
    refine ⟨mkLink a m, mkLink a m :: links,
      createShort_success links a m hurl hm hm0 (by rw [hch]; exact hfree), ?_⟩
    simp [mkLink, hch]
  · intro hcoll
    cases hf : findLink links (jsTrim a.customCode) with
    | none => exact absurd hf hcoll
    | some l => simp [createShort, hurl, hm, not_le.mpr hm0, hch, hf]

/-- A stored record already holding the code `abc`. -/
def abcLink : ShortLink :=
  { id := "abc"
    originalUrl := "https://x.com/c"
    createdAt := 0
    expiresAt := 60
    clicks := []
    createdBy := "o" }

/-- C6 (amended), witness: requesting `" abc"` against a free store uses
`"abc"`, and against a store already holding `"abc"` collides. -/
theorem C6_requested_code_witness :
    (∃ r s', createShort [] paddedArgs = Except.ok (r, s') ∧
      r.id = jsTrim paddedArgs.customCode) ∧
    createShort [abcLink] paddedArgs = Except.error CreateError.collision :=
  ⟨(C6_requested_code [] paddedArgs 30 (by decide) (by decide) (by decide)
      (by decide)).1 (by decide),
    (C6_requested_code [abcLink] paddedArgs 30 (by decide) (by decide) (by decide)
      (by decide)).2 (by decide)⟩

/-! ### C7 — deletion semantics -/

/-- A stored record the deletes below must not disturb. -/
def keptLink : ShortLink :=
  { id := "keep"
    originalUrl := "https://x.com/b"
    createdAt := 5
    expiresAt := 65
    clicks := []
    createdBy := "o" }

/-- C7: counterexample.  The claim says deleting a code that is not
present returns `NotFoundError` rather than succeeding silently; the
source's `removeLink` has no lookup and no failure path at all — it
filters unconditionally, so deleting the absent code `"zzz"` completes
as a silent no-op on the store. -/
theorem C7_counterexample :
    removeLink [] "zzz" = [] ∧ removeLink [keptLink] "zzz" = [keptLink] := by
  decide

/-- C7 (amended): deleting a present code removes exactly the records
carrying it and keeps all others; deleting an absent code is a silent
no-op (no error is reported — `removeLink` has no failure path). -/
theorem C7_delete (links : Links) (id : String) :
    (∀ l, l ∈ removeLink links id ↔ (l ∈ links ∧ l.id ≠ id)) ∧
    (findLink links id = none → removeLink links id = links) := by
  constructor
  · intro l
    unfold removeLink
    rw [List.mem_filter]
    simp [bne_iff_ne]
  · intro habs
    unfold removeLink
    exact List.filter_eq_self.mpr
      (fun l hl => by simpa [bne_iff_ne] using findLink_eq_none.mp habs l hl)

/-- C7 (amended), witness: deleting `"zzz"` from a store holding only
`"keep"` leaves the store unchanged. -/
theorem C7_delete_witness :
    removeLink [keptLink] "zzz" = [keptLink] :=
  (C7_delete [keptLink] "zzz").2 (by decide)

/-! ### C8 — deletion frees the code for reuse -/

/-- C8: create a record under a requested code, delete it, and a second
create with the same requested code succeeds and returns a fresh record
with empty `clicks` and the same code. -/
theorem C8_delete_frees (links : Links) (a b : CreateArgs) (m1 m2 : Int)
    (hsame : jsTrim b.customCode = jsTrim a.customCode)
    (hcc : jsTrim a.customCode ≠ "")
    (hfree : findLink links (jsTrim a.customCode) = none)
    (hurl1 : isValidUrl a.originalUrl = true)
    (hm1 : numValue a.validityMinutes = some m1) (hp1 : 0 < m1)
    (hurl2 : isValidUrl b.originalUrl = true)
    (hm2 : numValue b.validityMinutes = some m2) (hp2 : 0 < m2) :
    ∃ r1 r2 : ShortLink,
      createShort links a = Except.ok (r1, r1 :: links) ∧
      removeLink (r1 :: links) r1.id = links ∧
      createShort links b = Except.ok (r2, r2 :: links) ∧
      r2.clicks = [] ∧ r2.id = r1.id := by
  have hcha : chosenCode a = jsTrim a.customCode := by
    unfold chosenCode
    rw [if_neg hcc]
  have hccb : jsTrim b.customCode ≠ "" := by
    rw [hsame]
    exact hcc
  have hchb : chosenCode b = jsTrim b.customCode := by
    unfold chosenCode
    rw [if_neg hccb]
  have hfa : findLink links (chosenCode a) = none := by
    rw [hcha]
    exact hfree
  have hfb : findLink links (chosenCode b) = none := by
    rw [hchb, hsame]
    exact hfree
  refine ⟨mkLink a m1, mkLink b m2,
    createShort_success links a m1 hurl1 hm1 hp1 hfa,
    removeLink_cons_fresh (mkLink a m1) links (by simpa [mkLink] using hfa),
    createShort_success links b m2 hurl2 hm2 hp2 hfb,
    rfl, by simp [mkLink, hchb, hcha, hsame]⟩

/-- First create: `https://example.com/1` under requested code `abc`. -/
def reuseArgs1 : CreateArgs :=
  { originalUrl := "https://example.com/1"
    customCode := "abc"
    validityMinutes := VInput.num 60
    userId := "o"
    genCode := "g"
    now := 0 }

/-- Second create: `https://example.com/2` under the same code `abc`. -/
def reuseArgs2 : CreateArgs :=
  { originalUrl := "https://example.com/2"
    customCode := "abc"
    validityMinutes := VInput.num 60
    userId := "o"
    genCode := "g"
    now := 100 }

/-- C8, witness: the spec's create → delete → create sequence on code
`abc` against the empty store. -/
theorem C8_delete_frees_witness :
    ∃ r1 r2 : ShortLink,
      createShort [] reuseArgs1 = Except.ok (r1, r1 :: []) ∧
      removeLink (r1 :: []) r1.id = [] ∧
      createShort [] reuseArgs2 = Except.ok (r2, r2 :: []) ∧
      r2.clicks = [] ∧ r2.id = r1.id :=
  C8_delete_frees [] reuseArgs1 reuseArgs2 60 60 rfl (by decide) (by decide)
    (by decide) rfl (by decide) (by decide) rfl (by decide)

/-! ### C4 — uniqueness of codes -/

/-- A successful create prepends a record whose code no existing record
carries, so code uniqueness is preserved. -/
theorem uniqueCodes_create {links : Links} {a : CreateArgs} {r : ShortLink}
    {s' : Links} (hc : createShort links a = Except.ok (r, s'))
    (hu : uniqueCodes links) : uniqueCodes s' := by
  obtain ⟨hs, hid, _, _, _, _, _, _, hfree⟩ := createShort_ok hc
  subst hs
  unfold uniqueCodes at hu ⊢
  rw [List.map_cons, List.nodup_cons]
  refine ⟨fun hmem => ?_, hu⟩
  rw [List.mem_map] at hmem
  obtain ⟨l, hl, hlid⟩ := hmem
  exact findLink_eq_none.mp hfree l hl (by rw [hlid, hid])

/-- Code uniqueness is preserved by one `createShort` call (failed calls
leave the store unchanged). -/
theorem uniqueCodes_createStep (links : Links) (a : CreateArgs)
    (hu : uniqueCodes links) : uniqueCodes (createStep links a) := by
  cases hc : createShort links a with
  | error e =>
    have h : createStep links a = links := by simp [createStep, hc]
    rw [h]
    exact hu
  | ok p =>
    obtain ⟨r, s'⟩ := p
    have h : createStep links a = s' := by simp [createStep, hc]
    rw [h]
    exact uniqueCodes_create hc hu

/-- C4: starting from a store with pairwise distinct codes, any sequence
of `createShort` calls (no intervening deletes) keeps all simultaneously
held codes pairwise distinct; and a create whose chosen code already
exists in the store never succeeds (it fails instead of inserting a
duplicate). -/
theorem C4_uniqueness (links : Links) (cs : List CreateArgs)
    (hu : uniqueCodes links) :
    uniqueCodes (runCreates links cs) ∧
    ∀ a : CreateArgs, chosenCode a ∈ links.map (fun l => l.id) →
      ∀ r s', createShort links a ≠ Except.ok (r, s') := by
  constructor
  · induction cs generalizing links with
    | nil => simpa [runCreates] using hu
    | cons c rest ih =>
      have h1 := uniqueCodes_createStep links c hu
      simpa [runCreates, List.foldl_cons] using ih (createStep links c) h1
  · intro a hmem r s' hc
    obtain ⟨_, _, _, _, _, _, _, _, hfree⟩ := createShort_ok hc
    rw [List.mem_map] at hmem
    obtain ⟨l, hl, hlid⟩ := hmem
    exact findLink_eq_none.mp hfree l hl hlid

/-- C4, witness: two creates that both request code `abc`; the second
fails, and the resulting store still has pairwise distinct codes. -/
theorem C4_uniqueness_witness :
    uniqueCodes (runCreates [] [reuseArgs1, reuseArgs1]) :=
  (C4_uniqueness [] [reuseArgs1, reuseArgs1] (by simp [uniqueCodes])).1

/-! ### C9 — listing order is `createdAt` descending -/

/-- The update `touchClicks` never changes a record's `createdAt`. -/
theorem touchClicks_createdAt (id : String) (c : ClickRecord) (l : ShortLink) :
    (touchClicks id c l).createdAt = l.createdAt := by
  unfold touchClicks
  split <;> rfl

/-- Appending a click preserves the newest-first ordering. -/
theorem sortedDesc_recordClick {links : Links} (id : String) (c : ClickRecord)
    (h : sortedDesc links) : sortedDesc (recordClick links id c) := by
  unfold sortedDesc at h ⊢
  unfold recordClick
  rw [List.pairwise_map]
  exact h.imp (fun hab => by simpa [touchClicks_createdAt] using hab)

/-- Appending a click preserves every creation-time bound. -/
theorem boundBy_recordClick {links : Links} {t : Int} (id : String)
    (c : ClickRecord) (h : boundBy t links) : boundBy t (recordClick links id c) := by
  intro l hl
  rw [recordClick, List.mem_map] at hl
  obtain ⟨x, hx, hxl⟩ := hl
  rw [← hxl, touchClicks_createdAt]
  exact h x hx

/-- Deleting preserves the newest-first ordering. -/
theorem sortedDesc_removeLink {links : Links} (id : String)
    (h : sortedDesc links) : sortedDesc (removeLink links id) :=
  h.sublist (List.filter_sublist links)

/-- Deleting preserves every creation-time bound. -/
theorem boundBy_removeLink {links : Links} {t : Int} (id : String)
    (h : boundBy t links) : boundBy t (removeLink links id) :=
  fun l hl => h l (List.mem_of_mem_filter hl)

/-- A creation-time bound weakens to any later instant. -/
theorem boundBy_mono {links : Links} {t t' : Int} (h : boundBy t links)
    (hle : t ≤ t') : boundBy t' links :=
  fun l hl => le_trans (h l hl) hle

/-- A successful create at an instant `now` that is no earlier than every
existing `createdAt` keeps the store newest-first and bounded by `now`. -/
theorem sortedDesc_create {links : Links} {t : Int} {a : CreateArgs}
    {r : ShortLink} {s' : Links} (hc : createShort links a = Except.ok (r, s'))
    (hs : sortedDesc links) (hb : boundBy t links) (ht : t ≤ a.now) :
    sortedDesc s' ∧ boundBy a.now s' := by
  obtain ⟨hss, _, _, hcr, _, _, _, _, _⟩ := createShort_ok hc
  subst hss
  constructor
  · rw [sortedDesc, List.pairwise_cons]
    exact ⟨fun l hl => by rw [hcr]; exact le_trans (hb l hl) ht, hs⟩
  · intro l hl
    rcases List.mem_cons.mp hl with h | h
    · rw [h, hcr]
    · exact le_trans (hb l h) ht

/-- One `createShort` call, successful or not. -/
theorem sortedDesc_createStep {links : Links} {t : Int} (a : CreateArgs)
    (hs : sortedDesc links) (hb : boundBy t links) (ht : t ≤ a.now) :
    sortedDesc (createStep links a) ∧ boundBy a.now (createStep links a) := by
  cases hc : createShort links a with
  | error e =>
    have h : createStep links a = links := by simp [createStep, hc]
    rw [h]
    exact ⟨hs, boundBy_mono hb ht⟩
  | ok p =>
    obtain ⟨r, s'⟩ := p
    have h : createStep links a = s' := by simp [createStep, hc]
    rw [h]
    exact sortedDesc_create hc hs hb ht

/-- A resolution either leaves the store unchanged or appends one click. -/
theorem resolve_snd (links : Links) (id src : String) (now : Int) :
    (resolve links id src now).2 = links ∨
    (resolve links id src now).2 =
      recordClick links id { ts := now, source := src } := by
  cases hf : findLink links id with
  | none => exact Or.inl (by simp [resolve, hf])
  | some found =>
    by_cases hlt : found.expiresAt < now
    · exact Or.inl (by simp [resolve, hf, hlt])
    · exact Or.inr (by simp [resolve, hf, hlt])

/-- One unfolding step of `runOps`. -/
theorem runOps_cons (links : Links) (op : Op) (ops : List Op) :
    runOps links (op :: ops) = runOps (applyOp links op) ops := rfl

/-- C9: after every sequence of create, delete, and click-recording
operations whose wall-clock instants never decrease (the source reads the
real clock via `nowIso()`), the persisted list — which `createShort`
builds by prepending (`[newLink, ...s]`) and which the dashboard renders
in stored order — is sorted by `createdAt` descending: each record's
`createdAt` is `≥` that of every record after it. -/
theorem C9_list_ordering (links : Links) (t : Int) (ops : List Op)
    (hs : sortedDesc links) (hb : boundBy t links)
    (hm : timesMonotone t ops = true) :
    sortedDesc (runOps links ops) := by
  induction ops generalizing links t with
  | nil => simpa [runOps] using hs
  | cons op rest ih =>
    rw [timesMonotone, Bool.and_eq_true, decide_eq_true_eq] at hm
    obtain ⟨hle, hrest⟩ := hm
    rw [runOps_cons]
    have hstep : sortedDesc (applyOp links op) ∧
        boundBy (opTime t op) (applyOp links op) := by
      cases op with
      | create a =>
        simp only [applyOp, opTime] at hle ⊢
        exact sortedDesc_createStep a hs hb hle
      | remove id =>
        simp only [applyOp, opTime]
        exact ⟨sortedDesc_removeLink id hs, boundBy_removeLink id hb⟩
      | click id src now =>
        simp only [applyOp, opTime] at hle ⊢
        exact ⟨sortedDesc_recordClick id _ hs,
          boundBy_mono (boundBy_recordClick id _ hb) hle⟩
      | visit id src now =>
        simp only [applyOp, opTime] at hle ⊢
        rcases resolve_snd links id src now with h | h
        · rw [h]
          exact ⟨hs, boundBy_mono hb hle⟩
        · rw [h]
          exact ⟨sortedDesc_recordClick id _ hs,
            boundBy_mono (boundBy_recordClick id _ hb) hle⟩
    exact ih (applyOp links op) (opTime t op) hstep.1 hstep.2 hrest

/-- Create at time 5 under code `a`. -/
def traceArgsA : CreateArgs :=
  { originalUrl := "https://example.com/a"
    customCode := "a"
    validityMinutes := VInput.num 30
    userId := "o"
    genCode := "g"
    now := 5 }

/-- Create at time 7 under code `b`. -/
def traceArgsB : CreateArgs :=
  { originalUrl := "https://example.com/b"
    customCode := "b"
    validityMinutes := VInput.num 30
    userId := "o"
    genCode := "g"
    now := 7 }

/-- A trace mixing creates, a click, a delete, and a resolution. -/
def demoTrace : List Op :=
  [Op.create traceArgsA, Op.create traceArgsB, Op.click "a" "ref" 8,
    Op.remove "a", Op.visit "b" "ref" 9]

/-- C9, witness: the mixed trace from the empty store stays sorted. -/
theorem C9_list_ordering_witness : sortedDesc (runOps [] demoTrace) :=
  C9_list_ordering [] 0 demoTrace (by simp [sortedDesc]) (by simp [boundBy])
    (by decide)

end Shortener
